import Mathlib

/-!
# Verification of `convert_to_jpg.py`

A shallow embedding of the batch image-normalization script
`src/convert_to_jpg.py` (Pillow-based), together with theorems about its
two passes:

* the conversion pass (`.webp`/`.png` → `.jpg`, flatten transparency onto
  white, delete the original after a successful write), and
* the resize-in-place pass (`*.jp*g` files whose largest dimension exceeds
  `MAX_DIM` are re-encoded in place).

Images are modelled as dimensions plus a per-pixel RGBA interpretation
(the image-buffer data model of the program: width, height, mode, optional
palette transparency key).  EXIF orientation metadata is not part of this
data model, so `ImageOps.exif_transpose` is the identity here (Pillow
returns the image unchanged when no orientation tag is present).  The
LANCZOS resampling kernel is abstracted as coordinate scaling; no theorem
below depends on resampled pixel values.
-/

namespace ConvertToJpg

/-! ## Path suffix machinery (pathlib `Path.suffix` / `Path.with_suffix`) -/

/-- ASCII lowercasing of one character (`str.lower` restricted to the ASCII
letters that occur in the extensions the program compares). -/
def lowerChar (c : Char) : Char :=
  if 'A' ≤ c ∧ c ≤ 'Z' then Char.ofNat (c.toNat + 32) else c

/-- ASCII lowercasing of a string (`str.lower`). -/
def lowerStr (s : String) : String :=
  String.mk (s.data.map lowerChar)

/-- Split a character list at its LAST dot: `splitLastDot l = some (st, ex)`
iff `l = st ++ '.' :: ex` with no dot in `ex`; `none` when `l` has no dot. -/
def splitLastDot : List Char → Option (List Char × List Char)
  | [] => none
  | c :: cs =>
    match splitLastDot cs with
    | some (st, ex) => some (c :: st, ex)
    | none => if c = '.' then some ([], cs) else none

/-- `pathlib.Path.suffix`: the final `.ext` of the name, where the dot must
be at an index `i` with `0 < i < len - 1` (a leading dot or a trailing dot
yields the empty suffix). -/
def pathSuffix (s : String) : String :=
  match splitLastDot s.data with
  | some (st, ex) => if st ≠ [] ∧ ex ≠ [] then String.mk ('.' :: ex) else ""
  | none => ""

/-- `path.with_suffix(".jpg")`: replace the suffix when present, else append
`.jpg`. -/
def withSuffixJpg (s : String) : String :=
  match splitLastDot s.data with
  | some (st, ex) => if st ≠ [] ∧ ex ≠ [] then String.mk (st ++ ".jpg".data) else s ++ ".jpg"
  | none => s ++ ".jpg"

/-! ## Image buffers -/

/-- The color modes observed in the program's data model (spec §3):
plain color (`RGB`), color+alpha (`RGBA`), luminance (`L`),
luminance+alpha (`LA`), palette with optional transparency key (`P`). -/
inductive PMode
  | RGB
  | RGBA
  | L
  | LA
  | P
deriving DecidableEq

/-- One pixel, as its RGBA interpretation (each channel `0..255`). -/
structure RGBAv where
  r : ℕ
  g : ℕ
  b : ℕ
  a : ℕ
deriving DecidableEq

/-- A decoded in-memory image: dimensions, mode, per-pixel RGBA
interpretation (for modes without an accessible alpha channel the `a`
component is the interpretation `convert("RGBA")` would produce, i.e. the
palette transparency key for `P` images), and whether `"transparency"` is
present in `img.info` (Pillow sets it for palette images carrying a
transparency key). -/
structure PImage where
  mode : PMode
  width : ℕ
  height : ℕ
  px : ℕ → ℕ → RGBAv
  transparencyInfo : Bool

/-- `MAX_DIM = 600` (line 15). -/
def MAX_DIM : ℕ := 600

/-! ## `Image.thumbnail` (Pillow) — the size computation

`img.thumbnail((MAX_DIM, MAX_DIM), Image.LANCZOS)` (line 21).  Pillow
returns immediately when both target bounds already contain the image;
otherwise it keeps the aspect ratio, rounding the scaled dimension to the
neighbouring integer whose ratio is closest to the original aspect
(ties to the floor), and clamping to at least 1 pixel.  Pillow's float
arithmetic is modelled with exact rationals. -/

/-- Pillow's `round_aspect(number, key)`:
`max(min(math.floor(number), math.ceil(number), key=key), 1)`. -/
def roundAspect (number : ℚ) (key : ℕ → ℚ) : ℕ :=
  let fl : ℕ := (⌊number⌋).toNat
  let ce : ℕ := (⌈number⌉).toNat
  max (if key fl ≤ key ce then fl else ce) 1

/-- The new size computed by `Image.thumbnail((600, 600))`. -/
def thumbnailFit (w h : ℕ) : ℕ × ℕ :=
  if w ≤ MAX_DIM ∧ h ≤ MAX_DIM then (w, h)
  else
    let aspect : ℚ := (w : ℚ) / (h : ℚ)
    if aspect ≤ 1 then
      -- `x / y >= aspect` with `x = y = 600`: scale the width
      (roundAspect ((MAX_DIM : ℚ) * aspect)
        (fun n => |aspect - (n : ℚ) / (MAX_DIM : ℚ)|), MAX_DIM)
    else
      -- scale the height
      (MAX_DIM, roundAspect ((MAX_DIM : ℚ) / aspect)
        (fun n => if n = 0 then 0 else |aspect - (MAX_DIM : ℚ) / (n : ℚ)|))

/-- `resize` (lines 18–22): `exif_transpose` (identity on this data model,
which carries no EXIF orientation tag) followed by `thumbnail`.  Pixel
resampling is abstracted as coordinate scaling; the resampling kernel is
not modelled and no theorem depends on resampled pixel values. -/
def resize (img : PImage) : PImage :=
  let s := thumbnailFit img.width img.height
  { img with
    width := s.1
    height := s.2
    px := fun x y => img.px (x * img.width / s.1) (y * img.height / s.2) }

/-! ## `to_jpeg_rgb` (lines 24–35) -/

/-- The condition of line 29:
`img.mode in ("RGBA", "LA") or (img.mode == "P" and "transparency" in img.info)`. -/
def hasTransparency (img : PImage) : Bool :=
  match img.mode with
  | .RGBA => true
  | .LA => true
  | .P => img.transparencyInfo
  | _ => false

/-- `img.convert("RGBA")` (line 31): make the alpha channel explicit.  For
modes that already carry transparency (`RGBA`, `LA`, `P` with a
transparency key) the RGBA interpretation is kept; every other mode
becomes fully opaque. -/
def convertRGBA (img : PImage) : PImage :=
  { img with
    mode := .RGBA
    px := fun x y =>
      if hasTransparency img then img.px x y else { img.px x y with a := 255 } }

/-- `Image.new("RGBA", img.size, (255, 255, 255, 255))` (line 32). -/
def whiteBG (w h : ℕ) : PImage :=
  { mode := .RGBA, width := w, height := h
    px := fun _ _ => ⟨255, 255, 255, 255⟩, transparencyInfo := false }

/-- Source-over blending of one pixel, `src` over `dst`, with round-half-up
integer division.  (Pillow's `alpha_composite` computes this in fixed-point
arithmetic; its rounding agrees with this at the fully-transparent and
fully-opaque endpoints the theorems below use.) -/
def blendOver (d s : RGBAv) : RGBAv :=
  let oa255 : ℕ := s.a * 255 + d.a * (255 - s.a)
  let ch : ℕ → ℕ → ℕ := fun sc dc =>
    if oa255 = 0 then 0
    else (sc * s.a * 255 + dc * d.a * (255 - s.a) + oa255 / 2) / oa255
  ⟨ch s.r d.r, ch s.g d.g, ch s.b d.b, (oa255 + 127) / 255⟩

/-- `Image.alpha_composite(dst, src)` (line 33): composite `src` over `dst`
(Pillow requires equal sizes; the result takes `dst`'s size). -/
def alphaComposite (dst src : PImage) : PImage :=
  { mode := .RGBA, width := dst.width, height := dst.height
    px := fun x y => blendOver (dst.px x y) (src.px x y)
    transparencyInfo := false }

/-- `img.convert("RGB")` (lines 34–35): drop the alpha channel, yielding a
plain opaque 3-channel image (no compositing). -/
def convertRGB (img : PImage) : PImage :=
  { img with
    mode := .RGB
    px := fun x y => { img.px x y with a := 255 } }

/-- `to_jpeg_rgb` (lines 24–35). -/
def to_jpeg_rgb (img : PImage) : PImage :=
  if hasTransparency img then
    let i2 := convertRGBA img
    let bg := whiteBG i2.width i2.height
    convertRGB (alphaComposite bg i2)
  else
    convertRGB img

/-! ## Filesystem model and the two passes -/

/-- The content of a file on disk, as far as the program observes it: the
image it decodes to and the encoder settings it was written with. -/
structure FileContent where
  img : PImage
  format : String
  quality : ℕ
  optimize : Bool
  progressive : Bool

/-- `save(..., **JPEG_OPTS)` (line 16): `format="JPEG", quality=90,
optimize=True, progressive=True`. -/
def saveJpeg (img : PImage) : FileContent :=
  { img := img, format := "JPEG", quality := 90, optimize := true, progressive := true }

/-- The working directory's regular files, as a name-keyed association
list. -/
def FS : Type := List (String × FileContent)

def lookupFS : FS → String → Option FileContent
  | [], _ => none
  | (k, v) :: rest, n => if k = n then some v else lookupFS rest n

/-- `path.unlink()`: remove the binding for `n`. -/
def eraseFS (n : String) (fs : FS) : FS :=
  List.filter (fun p => !(p.1 == n)) fs

/-- `save(dst, ...)`: create or overwrite the file `n`. -/
def insertFS (n : String) (v : FileContent) (fs : FS) : FS :=
  (n, v) :: eraseFS n fs

/-- A directory entry yielded by `Path(".").iterdir()`: its name and
whether it is a regular file (a directory is listed too, just not a
file). -/
structure DirEntry where
  name : String
  isFile : Bool
deriving DecidableEq

/-- The selection test of lines 41–42: the entry is processed unless
`src_path.suffix.lower() not in {".webp", ".png"}`. -/
def selectedConv (e : DirEntry) : Bool :=
  lowerStr (pathSuffix e.name) == ".webp" || lowerStr (pathSuffix e.name) == ".png"

/-- One progress line printed by the program. -/
inductive LogLine
  | converted (src dst : String) (w h : ℕ)
  | resizedInPlace (name : String) (w h : ℕ)

/-- State threaded through the conversion pass: the directory contents,
`created_jpgs` (line 38) and the printed progress lines. -/
structure ConvState where
  fs : FS
  created : List String
  log : List LogLine

/-- The body of the conversion loop (lines 40–53) for one directory entry.
`writeOk dst` says whether `save(dst, **JPEG_OPTS)` succeeds; when it does
not (or when `Image.open` fails, e.g. on a vanished file or a directory
whose name matched), the exception aborts the whole run: `.error` carries
the state at the abort, with `src_path.unlink()` never reached. -/
def convPassStep (writeOk : String → Bool) (st : ConvState) (e : DirEntry) :
    Except ConvState ConvState :=
  if selectedConv e then
    match lookupFS st.fs e.name with
    | none => .error st
    | some content =>
      let rgb_jpeg_ready := to_jpeg_rgb (resize content.img)
      let dst := withSuffixJpg e.name
      if writeOk dst then
        let fs1 := insertFS dst (saveJpeg rgb_jpeg_ready) st.fs
        let fs2 := eraseFS e.name fs1
        .ok { fs := fs2
              created := st.created ++ [dst]
              log := st.log ++
                [.converted e.name dst rgb_jpeg_ready.width rgb_jpeg_ready.height] }
      else .error st
  else .ok st

/-- Run a per-entry step over a listing, aborting at the first raised
exception (the program has no per-file recovery). -/
def runPass {σ α : Type} (step : σ → α → Except σ σ) : σ → List α → Except σ σ
  | st, [] => .ok st
  | st, e :: rest => Except.bind (step st e) (fun st2 => runPass step st2 rest)

/-- The conversion pass (lines 38–53) over a snapshot of the directory
listing. -/
def convertPass (writeOk : String → Bool) (entries : List DirEntry) (st : ConvState) :
    Except ConvState ConvState :=
  runPass (convPassStep writeOk) st entries

/-- State threaded through the resize-in-place pass. -/
structure ResizeState where
  fs : FS
  log : List LogLine

/-- The body of the resize-in-place loop (lines 56–67) for one globbed
name.  Writes are not parametrized by a failure model here: no claim
concerns a failing in-place save. -/
def resizeStep (created_jpgs : List String) (st : ResizeState) (name : String) :
    Except ResizeState ResizeState :=
  if created_jpgs.contains name then .ok st
  else
    match lookupFS st.fs name with
    | none => .error st
    | some content =>
      if max content.img.width content.img.height ≤ MAX_DIM then .ok st
      else
        let resized := convertRGB (resize content.img)
        .ok { fs := insertFS name (saveJpeg resized) st.fs
              log := st.log ++ [.resizedInPlace name resized.width resized.height] }

/-- The resize-in-place pass (lines 56–67) over the globbed names. -/
def resizePass (created_jpgs : List String) (names : List String) (st : ResizeState) :
    Except ResizeState ResizeState :=
  runPass (resizeStep created_jpgs) st names

/-- The state in which a pass left the directory, whether it finished or
aborted. -/
def outState {σ : Type} : Except σ σ → σ
  | .ok s => s
  | .error s => s

/-! ## The glob of line 56 -/

/-- `fnmatch` matching for patterns built from literal characters and `*`
(the only constructs in `"*.jp*g"`); `*` matches any, possibly empty,
sequence of characters. -/
def globMatch : List Char → List Char → Bool
  | [], [] => true
  | [], _ :: _ => false
  | '*' :: ps, [] => globMatch ps []
  | '*' :: ps, c :: cs => globMatch ps (c :: cs) || globMatch ('*' :: ps) cs
  | _ :: _, [] => false
  | p :: ps, c :: cs => p == c && globMatch ps cs
termination_by ps cs => ps.length + cs.length

/-- The pattern of line 56: `Path(".").glob("*.jp*g")`. -/
def jpGlob : List Char := "*.jp*g".data

/-- Whether an entry is yielded by `Path(".").glob("*.jp*g")` (the glob
matches names, not file kinds). -/
def pass2Select (e : DirEntry) : Bool :=
  globMatch jpGlob e.name.data

/-- The names the resize-in-place pass iterates over, given the directory
entries present when the glob runs. -/
def pass2Names (entries : List DirEntry) : List String :=
  (entries.filter pass2Select).map DirEntry.name

/-- Modelled from the spec: “the mode includes an alpha channel”, over the
observed mode universe of the data model (spec §3).  Used to compare the
spec's transparency decision with the code's condition. -/
def modeHasAlpha : PMode → Bool
  | .RGBA => true
  | .LA => true
  | _ => false

/-! ## Concrete fixtures used to instantiate the theorems -/

/-- A small, fully opaque plain-color image (100×80, within the bound). -/
def sampleImg : PImage :=
  { mode := .RGB, width := 100, height := 80
    px := fun _ _ => ⟨7, 8, 9, 255⟩, transparencyInfo := false }

/-- A file holding `sampleImg`. -/
def sampleContent : FileContent :=
  { img := sampleImg, format := "PNG", quality := 0, optimize := false, progressive := false }

/-- A large, fully opaque plain-color image (1200×600). -/
def sampleImgBig : PImage :=
  { mode := .RGB, width := 1200, height := 600
    px := fun _ _ => ⟨7, 8, 9, 255⟩, transparencyInfo := false }

/-- A file holding `sampleImgBig`. -/
def sampleContentBig : FileContent :=
  { img := sampleImgBig, format := "JPEG", quality := 0, optimize := false, progressive := false }

/-- A 1×1 image with an alpha channel, fully transparent. -/
def sampleImgAlpha : PImage :=
  { mode := .RGBA, width := 1, height := 1
    px := fun _ _ => ⟨10, 20, 30, 0⟩, transparencyInfo := false }

/-! ## Helper lemmas -/

lemma splitLastDot_eq_none (l : List Char) (h : '.' ∉ l) : splitLastDot l = none := by
  induction l with
  | nil => rfl
  | cons c cs ih =>
    have hc : c ≠ '.' := by
      intro hc; exact h (hc ▸ List.mem_cons_self c cs)
    have hcs : '.' ∉ cs := fun hm => h (List.mem_cons_of_mem c hm)
    simp [splitLastDot, ih hcs, hc]

lemma splitLastDot_append (cs ex : List Char) (hnd : '.' ∉ ex) :
    splitLastDot (cs ++ '.' :: ex) = some (cs, ex) := by
  induction cs with
  | nil => simp [splitLastDot, splitLastDot_eq_none ex hnd]
  | cons c cs ih => simp [splitLastDot, ih]

lemma splitLastDot_sound (l st ex : List Char) (h : splitLastDot l = some (st, ex)) :
    l = st ++ '.' :: ex := by
  induction l generalizing st ex with
  | nil => simp [splitLastDot] at h
  | cons c cs ih =>
    simp only [splitLastDot] at h
    cases hcs : splitLastDot cs with
    | some p =>
      obtain ⟨st', ex'⟩ := p
      rw [hcs] at h
      simp only [Option.some.injEq, Prod.mk.injEq] at h
      obtain ⟨h1, h2⟩ := h
      have hl := ih st' ex' hcs
      rw [← h1, ← h2, hl]
      simp
    | none =>
      rw [hcs] at h
      by_cases hc : c = '.'
      · simp only [hc, if_pos] at h
        simp only [Option.some.injEq, Prod.mk.injEq] at h
        obtain ⟨h1, h2⟩ := h
        subst h1; subst h2
        simp [hc]
      · simp [hc] at h

lemma eraseFS_cons (n : String) (p : String × FileContent) (rest : FS) :
    eraseFS n (p :: rest) =
      if p.1 = n then eraseFS n rest else p :: eraseFS n rest := by
  by_cases hp : p.1 = n <;> simp [eraseFS, List.filter_cons, hp]

lemma lookupFS_eraseFS_self (n : String) (fs : FS) :
    lookupFS (eraseFS n fs) n = none := by
  induction fs with
  | nil => rfl
  | cons p rest ih =>
    rw [eraseFS_cons]
    by_cases hp : p.1 = n
    · simpa [hp] using ih
    · simp [hp, lookupFS, ih]

lemma lookupFS_eraseFS_ne (n m : String) (fs : FS) (h : m ≠ n) :
    lookupFS (eraseFS n fs) m = lookupFS fs m := by
  induction fs with
  | nil => rfl
  | cons p rest ih =>
    rw [eraseFS_cons]
    by_cases hp : p.1 = n
    · have hpm : ¬p.1 = m := fun hc => h (hc.symm.trans hp)
      rw [if_pos hp, ih]
      simp [lookupFS, hpm]
    · rw [if_neg hp]
      by_cases hpm : p.1 = m <;> simp [lookupFS, hpm, ih]

lemma lookupFS_insertFS_self (n : String) (v : FileContent) (fs : FS) :
    lookupFS (insertFS n v fs) n = some v := by
  simp [insertFS, lookupFS]

lemma lookupFS_insertFS_ne (n m : String) (v : FileContent) (fs : FS) (h : m ≠ n) :
    lookupFS (insertFS n v fs) m = lookupFS fs m := by
  have : n ≠ m := fun hc => h hc.symm
  simp [insertFS, lookupFS, this, lookupFS_eraseFS_ne n m fs h]

lemma data_ne_nil_of_ne_empty (s : String) (h : s ≠ "") : s.data ≠ [] := by
  intro hc; exact h (by cases s; simp_all)

lemma pathSuffix_append_png (s : String) (hs : s ≠ "") :
    pathSuffix (s ++ ".png") = ".png" := by
  have hd : (s ++ ".png").data = s.data ++ '.' :: "png".data := by
    rw [String.data_append]
  simp [pathSuffix, hd, splitLastDot_append s.data "png".data (by decide),
    data_ne_nil_of_ne_empty s hs]

lemma pathSuffix_append_webp (s : String) (hs : s ≠ "") :
    pathSuffix (s ++ ".webp") = ".webp" := by
  have hd : (s ++ ".webp").data = s.data ++ '.' :: "webp".data := by
    rw [String.data_append]
  simp [pathSuffix, hd, splitLastDot_append s.data "webp".data (by decide),
    data_ne_nil_of_ne_empty s hs]

lemma pathSuffix_append_jpg (s : String) (hs : s ≠ "") :
    pathSuffix (s ++ ".jpg") = ".jpg" := by
  have hd : (s ++ ".jpg").data = s.data ++ '.' :: "jpg".data := by
    rw [String.data_append]
  simp [pathSuffix, hd, splitLastDot_append s.data "jpg".data (by decide),
    data_ne_nil_of_ne_empty s hs]

lemma withSuffixJpg_append_png (s : String) (hs : s ≠ "") :
    withSuffixJpg (s ++ ".png") = s ++ ".jpg" := by
  have hd : (s ++ ".png").data = s.data ++ '.' :: "png".data := by
    rw [String.data_append]
  simp [withSuffixJpg, hd, splitLastDot_append s.data "png".data (by decide),
    data_ne_nil_of_ne_empty s hs]
  exact congrArg String.mk (String.data_append s ".jpg").symm

lemma withSuffixJpg_append_webp (s : String) (hs : s ≠ "") :
    withSuffixJpg (s ++ ".webp") = s ++ ".jpg" := by
  have hd : (s ++ ".webp").data = s.data ++ '.' :: "webp".data := by
    rw [String.data_append]
  simp [withSuffixJpg, hd, splitLastDot_append s.data "webp".data (by decide),
    data_ne_nil_of_ne_empty s hs]
  exact congrArg String.mk (String.data_append s ".jpg").symm

/-- A name the conversion pass selects never coincides with its `.jpg`
destination (its suffix lowercases to `.webp` or `.png`, not `.jpg`). -/
lemma withSuffixJpg_ne_of_selected (e : DirEntry) (h : selectedConv e = true) :
    withSuffixJpg e.name ≠ e.name := by
  have hsuf : lowerStr (pathSuffix e.name) = ".webp" ∨ lowerStr (pathSuffix e.name) = ".png" := by
    simpa [selectedConv] using h
  intro heq
  rcases hsp : splitLastDot e.name.data with _ | ⟨st, ex⟩
  · have : pathSuffix e.name = "" := by simp [pathSuffix, hsp]
    rw [this] at hsuf
    rcases hsuf with h' | h' <;> exact absurd h' (by decide)
  · by_cases hgate : st ≠ [] ∧ ex ≠ []
    · have hdata : e.name.data = st ++ '.' :: ex := splitLastDot_sound _ _ _ hsp
      have hw : withSuffixJpg e.name = String.mk (st ++ ".jpg".data) := by
        simp [withSuffixJpg, hsp, hgate]
      rw [hw] at heq
      have hlists : st ++ ".jpg".data = st ++ '.' :: ex := by
        have := congrArg String.data heq
        simpa [hdata] using this
      have hex : ex = "jpg".data := by
        have := List.append_cancel_left hlists
        simpa using this.symm
      have hps : pathSuffix e.name = ".jpg" := by
        simp [pathSuffix, hsp, hgate, hex]
      rw [hps] at hsuf
      rcases hsuf with h' | h' <;> exact absurd h' (by decide)
    · have : pathSuffix e.name = "" := by simp [pathSuffix, hsp, hgate]
      rw [this] at hsuf
      rcases hsuf with h' | h' <;> exact absurd h' (by decide)

/-- Compositing a fully transparent pixel over opaque white gives pure
white. -/
lemma blendOver_transparent (s : RGBAv) (hs : s.a = 0) :
    blendOver ⟨255, 255, 255, 255⟩ s = ⟨255, 255, 255, 255⟩ := by
  simp [blendOver, hs]

/-- Compositing a fully opaque pixel over opaque white leaves its color
unchanged. -/
lemma blendOver_opaque (s : RGBAv) (hs : s.a = 255) :
    blendOver ⟨255, 255, 255, 255⟩ s = ⟨s.r, s.g, s.b, 255⟩ := by
  have key : ∀ sc : ℕ, (sc * 255 * 255 + 255 * 255 * (255 - 255) + 65025 / 2) / 65025 = sc := by
    intro sc
    have h1 : sc * 255 * 255 + 255 * 255 * (255 - 255) + 65025 / 2 = 32512 + sc * 65025 := by
      norm_num; ring
    rw [h1, Nat.add_mul_div_right _ _ (by norm_num : (0:ℕ) < 65025)]
    norm_num
  simp only [blendOver, hs]
  norm_num [key]

/-- Unfolding of one step of a pass. -/
lemma runPass_cons {σ α : Type} (step : σ → α → Except σ σ) (st : σ) (e : α) (rest : List α) :
    runPass step st (e :: rest) = Except.bind (step st e) (fun st2 => runPass step st2 rest) := by
  rw [runPass]

lemma runPass_step_ok {σ α : Type} (step : σ → α → Except σ σ) (st st2 : σ) (e : α)
    (rest : List α) (h : step st e = .ok st2) :
    runPass step st (e :: rest) = runPass step st2 rest := by
  rw [runPass_cons, h]
  rfl

lemma runPass_step_error {σ α : Type} (step : σ → α → Except σ σ) (st st2 : σ) (e : α)
    (rest : List α) (h : step st e = .error st2) :
    runPass step st (e :: rest) = .error st2 := by
  rw [runPass_cons, h]
  rfl

lemma runPass_nil {σ α : Type} (step : σ → α → Except σ σ) (st : σ) :
    runPass step st [] = .ok st := by
  rw [runPass]

lemma convertPass_nil (writeOk : String → Bool) (st : ConvState) :
    convertPass writeOk [] st = .ok st := by
  unfold convertPass
  exact runPass_nil _ st

lemma resizePass_step_ok (created : List String) (st st2 : ResizeState) (m : String)
    (rest : List String) (h : resizeStep created st m = .ok st2) :
    resizePass created (m :: rest) st = resizePass created rest st2 := by
  unfold resizePass
  exact runPass_step_ok _ st st2 m rest h

lemma resizePass_step_error (created : List String) (st st2 : ResizeState) (m : String)
    (rest : List String) (h : resizeStep created st m = .error st2) :
    resizePass created (m :: rest) st = .error st2 := by
  unfold resizePass
  exact runPass_step_error _ st st2 m rest h

lemma convertPass_step_ok (writeOk : String → Bool) (st st2 : ConvState) (e : DirEntry)
    (rest : List DirEntry) (h : convPassStep writeOk st e = .ok st2) :
    convertPass writeOk (e :: rest) st = convertPass writeOk rest st2 := by
  unfold convertPass
  exact runPass_step_ok _ st st2 e rest h

lemma convertPass_step_error (writeOk : String → Bool) (st st2 : ConvState) (e : DirEntry)
    (rest : List DirEntry) (h : convPassStep writeOk st e = .error st2) :
    convertPass writeOk (e :: rest) st = .error st2 := by
  unfold convertPass
  exact runPass_step_error _ st st2 e rest h

/-- Files the resize-in-place pass skips — because their name is in
`created_jpgs`, or because their decoded image is already within the
bound — keep their content, and no progress line mentioning them is
added, however the rest of the pass goes. -/
lemma resizePass_untouched (created names : List String) (st : ResizeState) (n : String)
    (h : created.contains n = true ∨
      ∃ c, lookupFS st.fs n = some c ∧ max c.img.width c.img.height ≤ MAX_DIM) :
    lookupFS (outState (resizePass created names st)).fs n = lookupFS st.fs n ∧
    ∀ w hgt, LogLine.resizedInPlace n w hgt ∈ (outState (resizePass created names st)).log →
      LogLine.resizedInPlace n w hgt ∈ st.log := by
  induction names generalizing st with
  | nil => exact ⟨rfl, fun _ _ hm => hm⟩
  | cons m rest ih =>
    by_cases hcm : created.contains m = true
    · have hstep : resizeStep created st m = .ok st := by
        unfold resizeStep
        rw [if_pos hcm]
      rw [resizePass_step_ok created st st m rest hstep]
      exact ih st h
    · rcases hlm : lookupFS st.fs m with _ | cm
      · have hstep : resizeStep created st m = .error st := by
          unfold resizeStep
          rw [if_neg hcm, hlm]
        rw [resizePass_step_error created st st m rest hstep]
        exact ⟨rfl, fun _ _ hm => hm⟩
      · by_cases hsm : max cm.img.width cm.img.height ≤ MAX_DIM
        · have hstep : resizeStep created st m = .ok st := by
            unfold resizeStep
            rw [if_neg hcm, hlm]
            exact if_pos hsm
          rw [resizePass_step_ok created st st m rest hstep]
          exact ih st h
        · have hmn : m ≠ n := by
            intro hc
            subst hc
            rcases h with h | ⟨c, hlc, hsc⟩
            · exact hcm h
            · rw [hlm] at hlc
              exact hsm (by injection hlc with hcc; rw [hcc]; exact hsc)
          have hstep : resizeStep created st m =
              .ok { fs := insertFS m (saveJpeg (convertRGB (resize cm.img))) st.fs
                    log := st.log ++ [.resizedInPlace m (convertRGB (resize cm.img)).width
                      (convertRGB (resize cm.img)).height] } := by
            unfold resizeStep
            rw [if_neg hcm, hlm]
            exact if_neg hsm
          rw [resizePass_step_ok created st _ m rest hstep]
          have hlk : lookupFS (insertFS m (saveJpeg (convertRGB (resize cm.img))) st.fs) n =
              lookupFS st.fs n :=
            lookupFS_insertFS_ne m n _ st.fs (fun hc => hmn hc.symm)
          have h2 : created.contains n = true ∨
              ∃ c, lookupFS (insertFS m (saveJpeg (convertRGB (resize cm.img))) st.fs) n =
                some c ∧ max c.img.width c.img.height ≤ MAX_DIM := by
            rcases h with h | ⟨c, hlc, hsc⟩
            · exact .inl h
            · exact .inr ⟨c, by rw [hlk]; exact hlc, hsc⟩
          obtain ⟨ih1, ih2⟩ := ih
            { fs := insertFS m (saveJpeg (convertRGB (resize cm.img))) st.fs
              log := st.log ++ [.resizedInPlace m (convertRGB (resize cm.img)).width
                (convertRGB (resize cm.img)).height] } h2
          refine ⟨by rw [ih1]; exact hlk, fun w hgt hm => ?_⟩
          have hin := ih2 w hgt hm
          simp only [List.mem_append, List.mem_singleton] at hin
          rcases hin with hin | hline
          · exact hin
          · exact absurd (by injection hline with h1; exact h1.symm) hmn

/-- Whatever the key selects, `round_aspect` returns an integer within 1
of its argument, clamped to `[1, 600]` (for arguments in `(0, 600]`). -/
lemma roundAspect_bounds (q : ℚ) (key : ℕ → ℚ) (h0 : 0 < q) (h6 : q ≤ 600) :
    1 ≤ roundAspect q key ∧ roundAspect q key ≤ 600 ∧
      |(roundAspect q key : ℚ) - q| ≤ 1 := by
  have hfl0 : (0 : ℤ) ≤ ⌊q⌋ := Int.floor_nonneg.mpr h0.le
  have hcastf : (((⌊q⌋).toNat : ℕ) : ℚ) = ((⌊q⌋ : ℤ) : ℚ) := by
    rw [← Int.cast_natCast, Int.toNat_of_nonneg hfl0]
  have hce0 : (0 : ℤ) < ⌈q⌉ := Int.ceil_pos.mpr h0
  have hcastc : (((⌈q⌉).toNat : ℕ) : ℚ) = ((⌈q⌉ : ℤ) : ℚ) := by
    rw [← Int.cast_natCast, Int.toNat_of_nonneg hce0.le]
  have hflq : ((⌊q⌋ : ℤ) : ℚ) ≤ q := Int.floor_le q
  have hqfl : q - 1 < ((⌊q⌋ : ℤ) : ℚ) := Int.sub_one_lt_floor q
  have hqce : q ≤ ((⌈q⌉ : ℤ) : ℚ) := Int.le_ceil q
  have hcelt : ((⌈q⌉ : ℤ) : ℚ) < q + 1 := Int.ceil_lt_add_one q
  have hce6 : ⌈q⌉ ≤ 600 := Int.ceil_le.mpr (by exact_mod_cast h6)
  have hce6n : (⌈q⌉).toNat ≤ 600 := by omega
  have hce1n : 1 ≤ (⌈q⌉).toNat := by omega
  have hflce : ⌊q⌋ ≤ ⌈q⌉ := Int.floor_le_ceil q
  have hfl6n : (⌊q⌋).toNat ≤ 600 := by omega
  have hdef : roundAspect q key =
      max (if key (⌊q⌋).toNat ≤ key (⌈q⌉).toNat then (⌊q⌋).toNat else (⌈q⌉).toNat) 1 := rfl
  by_cases hkey : key (⌊q⌋).toNat ≤ key (⌈q⌉).toNat
  · rw [hdef, if_pos hkey]
    by_cases hfl1 : 1 ≤ (⌊q⌋).toNat
    · have hmax : max (⌊q⌋).toNat 1 = (⌊q⌋).toNat := Nat.max_eq_left hfl1
      rw [hmax]
      refine ⟨hfl1, hfl6n, abs_le.mpr ⟨?_, ?_⟩⟩
      · rw [hcastf]; linarith
      · rw [hcastf]; linarith
    · have hfl00 : (⌊q⌋).toNat = 0 := by omega
      have hq1 : q < 1 := by
        have hlt := Int.lt_floor_add_one q
        have hz : ⌊q⌋ = 0 := by omega
        rw [hz] at hlt
        push_cast at hlt
        linarith
      rw [hfl00]
      have hm01 : (0 : ℕ) ⊔ 1 = 1 := rfl
      rw [hm01]
      refine ⟨le_refl 1, by norm_num,
        abs_le.mpr ⟨by push_cast; linarith, by push_cast; linarith⟩⟩
  · rw [hdef, if_neg hkey]
    have hmax : max (⌈q⌉).toNat 1 = (⌈q⌉).toNat := Nat.max_eq_left hce1n
    rw [hmax]
    refine ⟨hce1n, hce6n, abs_le.mpr ⟨?_, ?_⟩⟩
    · rw [hcastc]; linarith
    · rw [hcastc]; linarith

/-- The size computed by `thumbnail((600, 600))`: the result fits the
bound with its largest dimension equal to `min (max w h) 600`, is the
identity on images already within the bound, and preserves the aspect
ratio up to one pixel of rounding on the scaled dimension. -/
lemma thumbnailFit_spec (w h : ℕ) (hw : 1 ≤ w) (hh : 1 ≤ h) :
    max (thumbnailFit w h).1 (thumbnailFit w h).2 = min (max w h) MAX_DIM ∧
    (w ≤ MAX_DIM ∧ h ≤ MAX_DIM → thumbnailFit w h = (w, h)) ∧
    |((thumbnailFit w h).1 : ℚ) * (h : ℚ) - (w : ℚ) * ((thumbnailFit w h).2 : ℚ)| ≤
      ((max w h : ℕ) : ℚ) := by
  have hq : (0 : ℚ) < (h : ℚ) := by exact_mod_cast hh
  have hw0 : (0 : ℚ) < (w : ℚ) := by exact_mod_cast hw
  by_cases hsmall : w ≤ MAX_DIM ∧ h ≤ MAX_DIM
  · have hfit : thumbnailFit w h = (w, h) := by
      unfold thumbnailFit
      rw [if_pos hsmall]
    rw [hfit]
    refine ⟨?_, fun _ => rfl, ?_⟩
    · exact (Nat.min_eq_left (max_le hsmall.1 hsmall.2)).symm
    · simp [mul_comm]
  · have hMD : ((MAX_DIM : ℕ) : ℚ) = (600 : ℚ) := by norm_num [MAX_DIM]
    by_cases hasp : (w : ℚ) / (h : ℚ) ≤ 1
    · -- the width is scaled, the height becomes 600
      have hfit : thumbnailFit w h =
          (roundAspect ((MAX_DIM : ℚ) * ((w : ℚ) / (h : ℚ)))
            (fun n => |(w : ℚ) / (h : ℚ) - (n : ℚ) / (MAX_DIM : ℚ)|), MAX_DIM) := by
        unfold thumbnailFit
        rw [if_neg hsmall]
        simp only []
        rw [if_pos hasp]
      have hwh : w ≤ h := by
        have := (div_le_one hq).mp hasp
        exact_mod_cast this
      have hh6 : MAX_DIM < h := by
        simp only [MAX_DIM] at hsmall ⊢
        omega
      have h0 : (0 : ℚ) < (MAX_DIM : ℚ) * ((w : ℚ) / (h : ℚ)) := by
        rw [hMD]
        positivity
      have h6 : (MAX_DIM : ℚ) * ((w : ℚ) / (h : ℚ)) ≤ 600 := by
        rw [hMD]
        nlinarith [hasp]
      obtain ⟨hr1, hr6, hrc⟩ := roundAspect_bounds ((MAX_DIM : ℚ) * ((w : ℚ) / (h : ℚ)))
        (fun n => |(w : ℚ) / (h : ℚ) - (n : ℚ) / (MAX_DIM : ℚ)|) h0 h6
      rw [hfit]
      have hMDn : MAX_DIM = 600 := rfl
      refine ⟨?_, fun hc => absurd hc hsmall, ?_⟩
      · rw [Nat.max_eq_right (by omega : roundAspect _ _ ≤ MAX_DIM),
          Nat.max_eq_right hwh, Nat.min_eq_right (by omega : MAX_DIM ≤ h)]
      · have hid : ((MAX_DIM : ℚ) * ((w : ℚ) / (h : ℚ))) * (h : ℚ) = 600 * (w : ℚ) := by
          rw [hMD]
          field_simp
        have hsplit : ((roundAspect ((MAX_DIM : ℚ) * ((w : ℚ) / (h : ℚ)))
              (fun n => |(w : ℚ) / (h : ℚ) - (n : ℚ) / (MAX_DIM : ℚ)|) : ℕ) : ℚ) * (h : ℚ) -
            (w : ℚ) * ((MAX_DIM : ℕ) : ℚ) =
            (((roundAspect ((MAX_DIM : ℚ) * ((w : ℚ) / (h : ℚ)))
              (fun n => |(w : ℚ) / (h : ℚ) - (n : ℚ) / (MAX_DIM : ℚ)|) : ℕ) : ℚ) -
              (MAX_DIM : ℚ) * ((w : ℚ) / (h : ℚ))) * (h : ℚ) := by
          rw [sub_mul, hid, hMD]
          ring
        rw [hsplit, abs_mul, abs_of_pos hq]
        have hcap : ((max w h : ℕ) : ℚ) = (h : ℚ) := by
          rw [Nat.max_eq_right hwh]
        rw [hcap]
        calc |_ - _| * (h : ℚ) ≤ 1 * (h : ℚ) := by
              apply mul_le_mul_of_nonneg_right hrc hq.le
          _ = (h : ℚ) := one_mul _
    · -- the height is scaled, the width becomes 600
      have hfit : thumbnailFit w h =
          (MAX_DIM, roundAspect ((MAX_DIM : ℚ) / ((w : ℚ) / (h : ℚ)))
            (fun n => if n = 0 then 0 else
              |(w : ℚ) / (h : ℚ) - (MAX_DIM : ℚ) / (n : ℚ)|)) := by
        unfold thumbnailFit
        rw [if_neg hsmall]
        simp only []
        rw [if_neg hasp]
      have hasp1 : 1 < (w : ℚ) / (h : ℚ) := lt_of_not_le hasp
      have hhw : h < w := by
        have := (one_lt_div hq).mp hasp1
        exact_mod_cast this
      have hw6 : MAX_DIM < w := by
        simp only [MAX_DIM] at hsmall ⊢
        omega
      have haspos : (0 : ℚ) < (w : ℚ) / (h : ℚ) := div_pos hw0 hq
      have h0 : (0 : ℚ) < (MAX_DIM : ℚ) / ((w : ℚ) / (h : ℚ)) := by
        rw [hMD]
        positivity
      have h6 : (MAX_DIM : ℚ) / ((w : ℚ) / (h : ℚ)) ≤ 600 := by
        rw [hMD, div_le_iff₀ haspos]
        nlinarith [hasp1]
      obtain ⟨hr1, hr6, hrc⟩ := roundAspect_bounds ((MAX_DIM : ℚ) / ((w : ℚ) / (h : ℚ)))
        (fun n => if n = 0 then 0 else |(w : ℚ) / (h : ℚ) - (MAX_DIM : ℚ) / (n : ℚ)|) h0 h6
      rw [hfit]
      have hMDn : MAX_DIM = 600 := rfl
      refine ⟨?_, fun hc => absurd hc hsmall, ?_⟩
      · rw [Nat.max_eq_left (by omega : roundAspect _ _ ≤ MAX_DIM),
          Nat.max_eq_left hhw.le, Nat.min_eq_right (by omega : MAX_DIM ≤ w)]
      · have hid : ((MAX_DIM : ℚ) / ((w : ℚ) / (h : ℚ))) * (w : ℚ) = 600 * (h : ℚ) := by
          rw [hMD]
          field_simp
        have hsplit : ((MAX_DIM : ℕ) : ℚ) * (h : ℚ) -
            (w : ℚ) * ((roundAspect ((MAX_DIM : ℚ) / ((w : ℚ) / (h : ℚ)))
              (fun n => if n = 0 then 0 else
                |(w : ℚ) / (h : ℚ) - (MAX_DIM : ℚ) / (n : ℚ)|) : ℕ) : ℚ) =
            (((MAX_DIM : ℚ) / ((w : ℚ) / (h : ℚ))) -
              ((roundAspect ((MAX_DIM : ℚ) / ((w : ℚ) / (h : ℚ)))
                (fun n => if n = 0 then 0 else
                  |(w : ℚ) / (h : ℚ) - (MAX_DIM : ℚ) / (n : ℚ)|) : ℕ) : ℚ)) * (w : ℚ) := by
          rw [sub_mul, hid, hMD]
          ring
        rw [hsplit, abs_mul, abs_of_pos hw0]
        have hcap : ((max w h : ℕ) : ℚ) = (w : ℚ) := by
          rw [Nat.max_eq_left hhw.le]
        rw [hcap]
        calc |_| * (w : ℚ) ≤ 1 * (w : ℚ) := by
              apply mul_le_mul_of_nonneg_right ?_ hw0.le
              rw [abs_sub_comm]
              exact hrc
          _ = (w : ℚ) := one_mul _

/-- The conversion-pass step on a selected entry with decodable content
and a succeeding write: decode, resize, flatten, save to the `.jpg`
sibling, unlink the source, record the destination, print. -/
lemma convPassStep_ok (writeOk : String → Bool) (st : ConvState) (e : DirEntry)
    (c : FileContent)
    (hsel : selectedConv e = true)
    (hlk : lookupFS st.fs e.name = some c)
    (hw : writeOk (withSuffixJpg e.name) = true) :
    convPassStep writeOk st e = .ok
      { fs := eraseFS e.name (insertFS (withSuffixJpg e.name)
                (saveJpeg (to_jpeg_rgb (resize c.img))) st.fs)
        created := st.created ++ [withSuffixJpg e.name]
        log := st.log ++ [.converted e.name (withSuffixJpg e.name)
          (to_jpeg_rgb (resize c.img)).width (to_jpeg_rgb (resize c.img)).height] } := by
  unfold convPassStep
  rw [if_pos hsel, hlk]
  simp only [hw, if_true]

/-! ## The claims -/

/-- **C1.** For every source file processed by the conversion pass, the
original `.webp`/`.png` file is deleted only after its `.jpg` replacement
has been successfully written: when the encode/write step fails (raises),
the step aborts with the state unchanged — the deletion statement
(`src_path.unlink()`, line 51) is never reached and the original file is
still present in the directory. -/
theorem conv_write_failure_keeps_source (writeOk : String → Bool) (st : ConvState)
    (e : DirEntry) (c : FileContent)
    (hsel : selectedConv e = true)
    (hlk : lookupFS st.fs e.name = some c)
    (hw : writeOk (withSuffixJpg e.name) = false) :
    convPassStep writeOk st e = .error st ∧
    lookupFS (outState (convPassStep writeOk st e)).fs e.name = some c := by
  have h1 : convPassStep writeOk st e = .error st := by
    unfold convPassStep
    rw [if_pos hsel, hlk]
    simp only [hw, Bool.false_eq_true, if_false]
  exact ⟨h1, by rw [h1]; exact hlk⟩

theorem conv_write_failure_keeps_source_witness :
    convPassStep (fun _ => false) ⟨[("a.png", sampleContent)], [], []⟩ ⟨"a.png", true⟩ =
      .error ⟨[("a.png", sampleContent)], [], []⟩ ∧
    lookupFS (outState (convPassStep (fun _ => false)
      ⟨[("a.png", sampleContent)], [], []⟩ ⟨"a.png", true⟩)).fs "a.png" = some sampleContent :=
  conv_write_failure_keeps_source (fun _ => false) ⟨[("a.png", sampleContent)], [], []⟩
    ⟨"a.png", true⟩ sampleContent (by decide) rfl rfl

/-- **C10.** The conversion pass has no size or transparency skip rule:
every selected `.webp`/`.png` entry with decodable content — however small
or opaque its image — is decoded, re-encoded as JPEG at quality 90 to its
`.jpg` destination, and its original is deleted.  (Only the resize-in-place
pass has skip rules; compare `resizeStep`.) -/
theorem conv_no_skip (writeOk : String → Bool) (st : ConvState) (e : DirEntry)
    (c : FileContent)
    (hsel : selectedConv e = true)
    (hlk : lookupFS st.fs e.name = some c)
    (hw : writeOk (withSuffixJpg e.name) = true) :
    convPassStep writeOk st e = .ok
      { fs := eraseFS e.name (insertFS (withSuffixJpg e.name)
                (saveJpeg (to_jpeg_rgb (resize c.img))) st.fs)
        created := st.created ++ [withSuffixJpg e.name]
        log := st.log ++ [.converted e.name (withSuffixJpg e.name)
          (to_jpeg_rgb (resize c.img)).width (to_jpeg_rgb (resize c.img)).height] } ∧
    lookupFS (outState (convPassStep writeOk st e)).fs e.name = none ∧
    lookupFS (outState (convPassStep writeOk st e)).fs (withSuffixJpg e.name) =
      some (saveJpeg (to_jpeg_rgb (resize c.img))) ∧
    (saveJpeg (to_jpeg_rgb (resize c.img))).quality = 90 ∧
    (saveJpeg (to_jpeg_rgb (resize c.img))).format = "JPEG" := by
  have h1 := convPassStep_ok writeOk st e c hsel hlk hw
  refine ⟨h1, ?_, ?_, rfl, rfl⟩
  · rw [h1]
    exact lookupFS_eraseFS_self e.name _
  · rw [h1]
    show lookupFS (eraseFS e.name _) (withSuffixJpg e.name) = _
    rw [lookupFS_eraseFS_ne e.name (withSuffixJpg e.name) _
      (withSuffixJpg_ne_of_selected e hsel)]
    exact lookupFS_insertFS_self _ _ _

theorem conv_no_skip_witness :
    selectedConv ⟨"a.png", true⟩ = true ∧
    max sampleContent.img.width sampleContent.img.height ≤ MAX_DIM ∧
    lookupFS (outState (convPassStep (fun _ => true)
        ⟨[("a.png", sampleContent)], [], []⟩ ⟨"a.png", true⟩)).fs "a.png" = none ∧
    lookupFS (outState (convPassStep (fun _ => true)
        ⟨[("a.png", sampleContent)], [], []⟩ ⟨"a.png", true⟩)).fs (withSuffixJpg "a.png") =
      some (saveJpeg (to_jpeg_rgb (resize sampleContent.img))) ∧
    (saveJpeg (to_jpeg_rgb (resize sampleContent.img))).quality = 90 :=
  have h := conv_no_skip (fun _ => true) ⟨[("a.png", sampleContent)], [], []⟩
    ⟨"a.png", true⟩ sampleContent (by decide) rfl rfl
  ⟨by decide, by decide, h.2.1, h.2.2.1, h.2.2.2.1⟩

/-- **C5 (counterexample).** The conversion pass's selection test looks
only at the entry's suffix, never at whether the entry is a regular file:
a directory named `subdir.png` is also selected (and `Image.open` on it
then aborts the run).  This refutes the claim that exactly the *regular
files* with a matching extension are selected. -/
theorem conv_selects_nonfile_entry :
    selectedConv ⟨"subdir.png", false⟩ = true ∧
    (⟨"subdir.png", false⟩ : DirEntry).isFile = false :=
  ⟨by decide, rfl⟩

/-- **C5 (amended).** The conversion pass selects exactly those directory
entries — regular file or not — whose extension, compared
case-insensitively, is `.webp` or `.png` (no recursion happens: only the
snapshot of the working directory's own entries is iterated); every
non-selected entry is left untouched by the pass. -/
theorem conv_selection_suffix_only (writeOk : String → Bool) (st : ConvState) (e : DirEntry) :
    (selectedConv e = true ↔
      (lowerStr (pathSuffix e.name) = ".webp" ∨ lowerStr (pathSuffix e.name) = ".png")) ∧
    selectedConv ⟨e.name, true⟩ = selectedConv ⟨e.name, false⟩ ∧
    (selectedConv e = false → convPassStep writeOk st e = .ok st) := by
  refine ⟨by simp [selectedConv], rfl, fun h => ?_⟩
  unfold convPassStep
  rw [if_neg]
  rw [h]
  simp

theorem conv_selection_suffix_only_witness :
    (selectedConv ⟨"x.txt", true⟩ = true ↔
      (lowerStr (pathSuffix "x.txt") = ".webp" ∨ lowerStr (pathSuffix "x.txt") = ".png")) ∧
    selectedConv ⟨"x.txt", true⟩ = selectedConv ⟨"x.txt", false⟩ ∧
    (selectedConv ⟨"x.txt", true⟩ = false →
      convPassStep (fun _ => true) ⟨[], [], []⟩ ⟨"x.txt", true⟩ = .ok ⟨[], [], []⟩) :=
  conv_selection_suffix_only (fun _ => true) ⟨[], [], []⟩ ⟨"x.txt", true⟩

/-- **C6.** Every file whose name was added to `created_jpgs` during the
conversion pass is skipped by the resize-in-place pass: its step is a
no-op (the file is not decoded and not rewritten), its content in the
directory is unchanged when the pass ends, and the pass adds no progress
line naming it. -/
theorem resize_pass_skips_created (created names : List String) (fs : FS)
    (lg : List LogLine) (n : String)
    (h : created.contains n = true) :
    (∀ st : ResizeState, resizeStep created st n = .ok st) ∧
    lookupFS (outState (resizePass created names ⟨fs, lg⟩)).fs n = lookupFS fs n ∧
    ∀ w hgt, LogLine.resizedInPlace n w hgt ∈
        (outState (resizePass created names ⟨fs, lg⟩)).log →
      LogLine.resizedInPlace n w hgt ∈ lg := by
  obtain ⟨h1, h2⟩ := resizePass_untouched created names ⟨fs, lg⟩ n (.inl h)
  exact ⟨fun st => by unfold resizeStep; rw [if_pos h], h1, h2⟩

theorem resize_pass_skips_created_witness :
    (∀ st : ResizeState, resizeStep ["a.jpg"] st "a.jpg" = .ok st) ∧
    lookupFS (outState (resizePass ["a.jpg"] ["a.jpg"]
      ⟨[("a.jpg", sampleContentBig)], []⟩)).fs "a.jpg" =
      lookupFS [("a.jpg", sampleContentBig)] "a.jpg" ∧
    ∀ w hgt, LogLine.resizedInPlace "a.jpg" w hgt ∈
        (outState (resizePass ["a.jpg"] ["a.jpg"] ⟨[("a.jpg", sampleContentBig)], []⟩)).log →
      LogLine.resizedInPlace "a.jpg" w hgt ∈ ([] : List LogLine) :=
  resize_pass_skips_created ["a.jpg"] ["a.jpg"] [("a.jpg", sampleContentBig)] [] "a.jpg"
    (by decide)

/-- **C7.** For every JPEG file whose decoded image already satisfies
`max(width, height) ≤ 600`, the resize-in-place pass leaves the file's
content unchanged (skip rule 2: no rewrite) and emits no progress line for
it; hence re-running the pass on its own output is a no-op for such
files. -/
theorem resize_pass_small_noop (created names : List String) (fs : FS)
    (lg : List LogLine) (n : String) (c : FileContent)
    (hlk : lookupFS fs n = some c)
    (hsmall : max c.img.width c.img.height ≤ MAX_DIM) :
    lookupFS (outState (resizePass created names ⟨fs, lg⟩)).fs n = some c ∧
    ∀ w hgt, LogLine.resizedInPlace n w hgt ∈
        (outState (resizePass created names ⟨fs, lg⟩)).log →
      LogLine.resizedInPlace n w hgt ∈ lg := by
  obtain ⟨h1, h2⟩ := resizePass_untouched created names ⟨fs, lg⟩ n (.inr ⟨c, hlk, hsmall⟩)
  exact ⟨by rw [h1]; exact hlk, h2⟩

theorem resize_pass_small_noop_witness :
    lookupFS (outState (resizePass [] ["b.jpg"]
      ⟨[("b.jpg", sampleContent)], []⟩)).fs "b.jpg" = some sampleContent ∧
    ∀ w hgt, LogLine.resizedInPlace "b.jpg" w hgt ∈
        (outState (resizePass [] ["b.jpg"] ⟨[("b.jpg", sampleContent)], []⟩)).log →
      LogLine.resizedInPlace "b.jpg" w hgt ∈ ([] : List LogLine) :=
  resize_pass_small_noop [] ["b.jpg"] [("b.jpg", sampleContent)] [] "b.jpg" sampleContent
    rfl (by decide)

/-- **C3.** For every input image, the flattener returns a 3-channel
(`RGB`-mode), fully opaque color image with the same pixel dimensions as
its input; for an input in an alpha-channel mode, a fully transparent
pixel becomes pure white `(255, 255, 255)` in the output and a fully
opaque pixel passes through with its color unchanged. -/
theorem to_jpeg_rgb_opaque_rgb (img : PImage) :
    (to_jpeg_rgb img).mode = PMode.RGB ∧
    (to_jpeg_rgb img).width = img.width ∧
    (to_jpeg_rgb img).height = img.height ∧
    (∀ x y, ((to_jpeg_rgb img).px x y).a = 255) ∧
    ((img.mode = PMode.RGBA ∨ img.mode = PMode.LA) →
      ∀ x y,
        ((img.px x y).a = 0 →
          (to_jpeg_rgb img).px x y = ⟨255, 255, 255, 255⟩) ∧
        ((img.px x y).a = 255 →
          ((to_jpeg_rgb img).px x y).r = (img.px x y).r ∧
          ((to_jpeg_rgb img).px x y).g = (img.px x y).g ∧
          ((to_jpeg_rgb img).px x y).b = (img.px x y).b)) := by
  by_cases ht : hasTransparency img = true
  · have hpx : ∀ x y, (to_jpeg_rgb img).px x y =
        { blendOver ⟨255, 255, 255, 255⟩ (img.px x y) with a := 255 } := by
      intro x y
      simp [to_jpeg_rgb, ht, convertRGB, alphaComposite, whiteBG, convertRGBA]
    refine ⟨by simp [to_jpeg_rgb, ht, convertRGB],
      by simp [to_jpeg_rgb, ht, convertRGB, alphaComposite, whiteBG, convertRGBA],
      by simp [to_jpeg_rgb, ht, convertRGB, alphaComposite, whiteBG, convertRGBA],
      fun x y => by rw [hpx], fun _ x y => ⟨fun ha => ?_, fun ha => ?_⟩⟩
    · rw [hpx, blendOver_transparent (img.px x y) ha]
    · rw [hpx, blendOver_opaque (img.px x y) ha]
      exact ⟨rfl, rfl, rfl⟩
  · have ht2 : hasTransparency img = false := by
      rcases hb : hasTransparency img
      · rfl
      · exact absurd hb ht
    refine ⟨by simp [to_jpeg_rgb, ht2, convertRGB],
      by simp [to_jpeg_rgb, ht2, convertRGB],
      by simp [to_jpeg_rgb, ht2, convertRGB],
      fun x y => by simp [to_jpeg_rgb, ht2, convertRGB], fun hmode => ?_⟩
    exfalso
    rcases hmode with h | h <;> simp [hasTransparency, h] at ht2

theorem to_jpeg_rgb_opaque_rgb_witness :
    (to_jpeg_rgb sampleImgAlpha).mode = PMode.RGB ∧
    (to_jpeg_rgb sampleImgAlpha).width = sampleImgAlpha.width ∧
    (to_jpeg_rgb sampleImgAlpha).px 0 0 = ⟨255, 255, 255, 255⟩ :=
  have h := to_jpeg_rgb_opaque_rgb sampleImgAlpha
  ⟨h.1, h.2.1, (h.2.2.2.2 (.inl rfl) 0 0).1 rfl⟩

/-- **C4.** The flattener performs white-background compositing if and
only if the image's mode includes an alpha channel, or the mode is
palette-indexed and carries a transparency key in its metadata; in all
other cases it coerces directly to plain `RGB` with no compositing. -/
theorem to_jpeg_rgb_composite_iff (img : PImage) :
    (hasTransparency img =
      (modeHasAlpha img.mode || (img.mode == PMode.P && img.transparencyInfo))) ∧
    (hasTransparency img = true →
      to_jpeg_rgb img = convertRGB (alphaComposite
        (whiteBG (convertRGBA img).width (convertRGBA img).height) (convertRGBA img))) ∧
    (hasTransparency img = false → to_jpeg_rgb img = convertRGB img) := by
  refine ⟨?_, fun h => by simp [to_jpeg_rgb, h], fun h => by simp [to_jpeg_rgb, h]⟩
  rcases himg : img.mode <;> simp [hasTransparency, modeHasAlpha, himg]

theorem to_jpeg_rgb_composite_iff_witness :
    (hasTransparency sampleImgAlpha =
      (modeHasAlpha sampleImgAlpha.mode ||
        (sampleImgAlpha.mode == PMode.P && sampleImgAlpha.transparencyInfo))) ∧
    to_jpeg_rgb sampleImg = convertRGB sampleImg :=
  ⟨(to_jpeg_rgb_composite_iff sampleImgAlpha).1,
    (to_jpeg_rgb_composite_iff sampleImg).2.2 rfl⟩

/-- **C8.** The resize-in-place pass considers exactly the
working-directory entries whose name matches the glob pattern `*.jp*g`;
in particular `x.jpyg`, whose extension is neither `.jpg` nor `.jpeg`, is
still selected by the pass. -/
theorem resize_pass_glob_selection (entries : List DirEntry) (n : String) :
    (n ∈ pass2Names entries ↔
      ∃ e, e ∈ entries ∧ e.name = n ∧ globMatch jpGlob n.data = true) ∧
    globMatch jpGlob "x.jpyg".data = true ∧
    lowerStr (pathSuffix "x.jpyg") ≠ ".jpg" ∧
    lowerStr (pathSuffix "x.jpyg") ≠ ".jpeg" := by
  refine ⟨?_, by simp [globMatch, jpGlob], by decide, by decide⟩
  simp only [pass2Names, List.mem_map, List.mem_filter, pass2Select]
  constructor
  · rintro ⟨e, ⟨he, hg⟩, hn⟩
    exact ⟨e, he, hn, by rw [← hn]; exact hg⟩
  · rintro ⟨e, he, hn, hg⟩
    exact ⟨e, ⟨he, by rw [hn]; exact hg⟩, hn⟩

theorem resize_pass_glob_selection_witness :
    "x.jpyg" ∈ pass2Names [⟨"x.jpyg", true⟩] ∧
    globMatch jpGlob "x.jpyg".data = true ∧
    lowerStr (pathSuffix "x.jpyg") ≠ ".jpg" :=
  have h := resize_pass_glob_selection [⟨"x.jpyg", true⟩] "x.jpyg"
  ⟨h.1.mpr ⟨⟨"x.jpyg", true⟩, by simp, rfl, h.2.1⟩, h.2.1, h.2.2.1⟩

/-- **C9.** When the working directory contains two convertible source
files with the same stem (here `s.png` and `s.webp`), the conversion pass
writes both to the same destination `s.jpg`: the source processed later
overwrites the output of the earlier one, both originals are deleted, and
only the later-processed image's content survives; the log shows both
conversions targeting the same destination. -/
theorem conv_same_stem_overwrite (writeOk : String → Bool) (s : String)
    (c1 c2 : FileContent) (fs : FS) (cr : List String) (lg : List LogLine)
    (hs : s ≠ "")
    (h1 : lookupFS fs (s ++ ".png") = some c1)
    (h2 : lookupFS fs (s ++ ".webp") = some c2)
    (hw : writeOk (s ++ ".jpg") = true) :
    ∃ st2 : ConvState,
      convertPass writeOk [⟨s ++ ".png", true⟩, ⟨s ++ ".webp", true⟩] ⟨fs, cr, lg⟩ =
        .ok st2 ∧
      lookupFS st2.fs (s ++ ".jpg") = some (saveJpeg (to_jpeg_rgb (resize c2.img))) ∧
      lookupFS st2.fs (s ++ ".png") = none ∧
      lookupFS st2.fs (s ++ ".webp") = none ∧
      st2.log = lg ++
        [.converted (s ++ ".png") (s ++ ".jpg") (to_jpeg_rgb (resize c1.img)).width
           (to_jpeg_rgb (resize c1.img)).height,
         .converted (s ++ ".webp") (s ++ ".jpg") (to_jpeg_rgb (resize c2.img)).width
           (to_jpeg_rgb (resize c2.img)).height] := by
  have hps1 : pathSuffix (s ++ ".png") = ".png" := pathSuffix_append_png s hs
  have hps2 : pathSuffix (s ++ ".webp") = ".webp" := pathSuffix_append_webp s hs
  have hpsd : pathSuffix (s ++ ".jpg") = ".jpg" := pathSuffix_append_jpg s hs
  have hne : ∀ a b : String, pathSuffix a ≠ pathSuffix b → a ≠ b :=
    fun a b hps hc => hps (by rw [hc])
  have hne_n2n1 : s ++ ".webp" ≠ s ++ ".png" := hne _ _ (by rw [hps2, hps1]; decide)
  have hne_n2d : s ++ ".webp" ≠ s ++ ".jpg" := hne _ _ (by rw [hps2, hpsd]; decide)
  have hne_dn2 : s ++ ".jpg" ≠ s ++ ".webp" := hne _ _ (by rw [hps2, hpsd]; decide)
  have hne_n1n2 : s ++ ".png" ≠ s ++ ".webp" := hne _ _ (by rw [hps2, hps1]; decide)
  have hne_n1d : s ++ ".png" ≠ s ++ ".jpg" := hne _ _ (by rw [hps1, hpsd]; decide)
  have hlpng : lowerStr ".png" = ".png" := by decide
  have hlwebp : lowerStr ".webp" = ".webp" := by decide
  have hsel1 : selectedConv ⟨s ++ ".png", true⟩ = true := by
    simp [selectedConv, hps1, hlpng]
  have hsel2 : selectedConv ⟨s ++ ".webp", true⟩ = true := by
    simp [selectedConv, hps2, hlwebp]
  have hw1 : writeOk (withSuffixJpg (s ++ ".png")) = true := by
    rw [withSuffixJpg_append_png s hs]; exact hw
  have hw2 : writeOk (withSuffixJpg (s ++ ".webp")) = true := by
    rw [withSuffixJpg_append_webp s hs]; exact hw
  have step1 : convPassStep writeOk ⟨fs, cr, lg⟩ ⟨s ++ ".png", true⟩ = .ok
      { fs := eraseFS (s ++ ".png") (insertFS (s ++ ".jpg")
                (saveJpeg (to_jpeg_rgb (resize c1.img))) fs)
        created := cr ++ [s ++ ".jpg"]
        log := lg ++ [.converted (s ++ ".png") (s ++ ".jpg")
          (to_jpeg_rgb (resize c1.img)).width (to_jpeg_rgb (resize c1.img)).height] } := by
    have h := convPassStep_ok writeOk ⟨fs, cr, lg⟩ ⟨s ++ ".png", true⟩ c1 hsel1 h1 hw1
    rw [withSuffixJpg_append_png s hs] at h
    exact h
  have hlk2 : lookupFS (eraseFS (s ++ ".png") (insertFS (s ++ ".jpg")
      (saveJpeg (to_jpeg_rgb (resize c1.img))) fs)) (s ++ ".webp") = some c2 := by
    rw [lookupFS_eraseFS_ne _ _ _ hne_n2n1, lookupFS_insertFS_ne _ _ _ _ hne_n2d]
    exact h2
  have step2 : convPassStep writeOk
      { fs := eraseFS (s ++ ".png") (insertFS (s ++ ".jpg")
                (saveJpeg (to_jpeg_rgb (resize c1.img))) fs)
        created := cr ++ [s ++ ".jpg"]
        log := lg ++ [.converted (s ++ ".png") (s ++ ".jpg")
          (to_jpeg_rgb (resize c1.img)).width (to_jpeg_rgb (resize c1.img)).height] }
      ⟨s ++ ".webp", true⟩ = .ok
      { fs := eraseFS (s ++ ".webp") (insertFS (s ++ ".jpg")
                (saveJpeg (to_jpeg_rgb (resize c2.img)))
                (eraseFS (s ++ ".png") (insertFS (s ++ ".jpg")
                  (saveJpeg (to_jpeg_rgb (resize c1.img))) fs)))
        created := (cr ++ [s ++ ".jpg"]) ++ [s ++ ".jpg"]
        log := (lg ++ [.converted (s ++ ".png") (s ++ ".jpg")
            (to_jpeg_rgb (resize c1.img)).width (to_jpeg_rgb (resize c1.img)).height]) ++
          [.converted (s ++ ".webp") (s ++ ".jpg")
            (to_jpeg_rgb (resize c2.img)).width (to_jpeg_rgb (resize c2.img)).height] } := by
    have h := convPassStep_ok writeOk
      { fs := eraseFS (s ++ ".png") (insertFS (s ++ ".jpg")
                (saveJpeg (to_jpeg_rgb (resize c1.img))) fs)
        created := cr ++ [s ++ ".jpg"]
        log := lg ++ [.converted (s ++ ".png") (s ++ ".jpg")
          (to_jpeg_rgb (resize c1.img)).width (to_jpeg_rgb (resize c1.img)).height] }
      ⟨s ++ ".webp", true⟩ c2 hsel2 hlk2 hw2
    rw [withSuffixJpg_append_webp s hs] at h
    exact h
  refine ⟨{ fs := eraseFS (s ++ ".webp") (insertFS (s ++ ".jpg")
              (saveJpeg (to_jpeg_rgb (resize c2.img)))
              (eraseFS (s ++ ".png") (insertFS (s ++ ".jpg")
                (saveJpeg (to_jpeg_rgb (resize c1.img))) fs)))
            created := (cr ++ [s ++ ".jpg"]) ++ [s ++ ".jpg"]
            log := (lg ++ [.converted (s ++ ".png") (s ++ ".jpg")
                (to_jpeg_rgb (resize c1.img)).width (to_jpeg_rgb (resize c1.img)).height]) ++
              [.converted (s ++ ".webp") (s ++ ".jpg")
                (to_jpeg_rgb (resize c2.img)).width (to_jpeg_rgb (resize c2.img)).height] },
    ?_, ?_, ?_, ?_, ?_⟩
  · rw [convertPass_step_ok writeOk _ _ _ _ step1,
      convertPass_step_ok writeOk _ _ _ _ step2]
    exact convertPass_nil writeOk _
  · show lookupFS (eraseFS (s ++ ".webp") (insertFS (s ++ ".jpg") _ _)) (s ++ ".jpg") = _
    rw [lookupFS_eraseFS_ne _ _ _ hne_dn2, lookupFS_insertFS_self]
  · show lookupFS (eraseFS (s ++ ".webp") (insertFS (s ++ ".jpg") _
      (eraseFS (s ++ ".png") _))) (s ++ ".png") = none
    rw [lookupFS_eraseFS_ne _ _ _ hne_n1n2, lookupFS_insertFS_ne _ _ _ _ hne_n1d,
      lookupFS_eraseFS_self]
  · exact lookupFS_eraseFS_self _ _
  · show (lg ++ [_]) ++ [_] = lg ++ [_, _]
    rw [List.append_assoc]
    rfl

theorem conv_same_stem_overwrite_witness :
    ∃ st2 : ConvState,
      convertPass (fun _ => true)
          [⟨"a" ++ ".png", true⟩, ⟨"a" ++ ".webp", true⟩]
          ⟨[("a" ++ ".png", sampleContent), ("a" ++ ".webp", sampleContentBig)], [], []⟩ =
        .ok st2 ∧
      lookupFS st2.fs ("a" ++ ".jpg") =
        some (saveJpeg (to_jpeg_rgb (resize sampleContentBig.img))) ∧
      lookupFS st2.fs ("a" ++ ".png") = none ∧
      lookupFS st2.fs ("a" ++ ".webp") = none ∧
      st2.log = ([] : List LogLine) ++
        [.converted ("a" ++ ".png") ("a" ++ ".jpg")
           (to_jpeg_rgb (resize sampleContent.img)).width
           (to_jpeg_rgb (resize sampleContent.img)).height,
         .converted ("a" ++ ".webp") ("a" ++ ".jpg")
           (to_jpeg_rgb (resize sampleContentBig.img)).width
           (to_jpeg_rgb (resize sampleContentBig.img)).height] :=
  conv_same_stem_overwrite (fun _ => true) "a" sampleContent sampleContentBig
    [("a" ++ ".png", sampleContent), ("a" ++ ".webp", sampleContentBig)] [] []
    (by decide) (by rfl) (by rfl) rfl

/-- **C2.** For every decoded image with dimensions at least 1×1, `resize`
returns an image whose largest dimension equals
`min (max width height) 600`; if both dimensions are already ≤ 600 the
size is unchanged; and the aspect ratio is preserved up to rounding: the
cross products of the old and new dimensions differ by at most one pixel's
worth of the unscaled dimension (`|w2·h − w·h2| ≤ max w h`, i.e. the
scaled dimension is within 1 of its exact value). -/
theorem resize_bounds_dims (img : PImage) (hw : 1 ≤ img.width) (hh : 1 ≤ img.height) :
    max (resize img).width (resize img).height =
      min (max img.width img.height) MAX_DIM ∧
    (img.width ≤ MAX_DIM ∧ img.height ≤ MAX_DIM →
      (resize img).width = img.width ∧ (resize img).height = img.height) ∧
    |((resize img).width : ℚ) * (img.height : ℚ) -
        (img.width : ℚ) * ((resize img).height : ℚ)| ≤
      ((max img.width img.height : ℕ) : ℚ) := by
  have hrw : (resize img).width = (thumbnailFit img.width img.height).1 := rfl
  have hrh : (resize img).height = (thumbnailFit img.width img.height).2 := rfl
  obtain ⟨m1, m2, m3⟩ := thumbnailFit_spec img.width img.height hw hh
  rw [hrw, hrh]
  exact ⟨m1, fun hc => ⟨by rw [m2 hc], by rw [m2 hc]⟩, m3⟩

theorem resize_bounds_dims_witness :
    (max (resize sampleImgBig).width (resize sampleImgBig).height =
      min (max sampleImgBig.width sampleImgBig.height) MAX_DIM) ∧
    ((resize sampleImg).width = sampleImg.width ∧
      (resize sampleImg).height = sampleImg.height) ∧
    |((resize sampleImgBig).width : ℚ) * (sampleImgBig.height : ℚ) -
        (sampleImgBig.width : ℚ) * ((resize sampleImgBig).height : ℚ)| ≤
      ((max sampleImgBig.width sampleImgBig.height : ℕ) : ℚ) :=
  have hbig := resize_bounds_dims sampleImgBig (by decide) (by decide)
  have hsmall := resize_bounds_dims sampleImg (by decide) (by decide)
  ⟨hbig.1, hsmall.2.1 (by decide), hbig.2.2⟩

end ConvertToJpg
